import Mathlib

set_option maxRecDepth 200000
set_option maxHeartbeats 1000000

/-!
Shallow embedding of `src/secure_login.py` (class `SecureLoginSystem`):
salted SHA-256 password hashing, HOTP/TOTP code generation and
verification (HMAC-SHA1 over a 30-second counter, RFC 4226/6238
dynamic truncation), and the login decision flow.

Machine integers are modelled as `Nat` with explicit reduction
modulo `2 ^ 32` (for the hash compression functions) and byte values
as `Nat` below 256.  Python exceptions are modelled by `Option`
(`none` = the call raises).  Randomness (salt / secret draws) and the
wall clock are passed as explicit arguments.
-/

namespace SecureLogin

/-- Reduce a natural number to a 32-bit machine word. -/
def w32 (n : Nat) : Nat := n % 2 ^ 32

/-- Rotate a 32-bit word left by `s` bits (for `x < 2 ^ 32`, `0 < s < 32`). -/
def rotl32 (x s : Nat) : Nat := w32 (x <<< s) ||| (x >>> (32 - s))

/-- Rotate a 32-bit word right by `s` bits. -/
def rotr32 (x s : Nat) : Nat := (x >>> s) ||| w32 (x <<< (32 - s))

/-- Big-endian byte rendering: the `k` low-order bytes of `n`, most
significant first.  `beBytes 8` models `struct.pack` with format
character greater-than Q, `beBytes 4` a 32-bit word store. -/
def beBytes : Nat → Nat → List Nat
  | 0, _ => []
  | k + 1, n => beBytes k (n / 256) ++ [n % 256]

/-- Split a list into consecutive chunks of `size` elements (the last chunk
may be shorter).  `fuel` only bounds recursion depth; any `fuel ≥ l.length`
(with `size > 0`) yields the full chunking. -/
def chunksB {α : Type} (size : Nat) : Nat → List α → List (List α)
  | _, [] => []
  | 0, _ => []
  | fuel + 1, l => l.take size :: chunksB size fuel (l.drop size)

/-- Big-endian word read: fold bytes into a single natural number. -/
def beWord (l : List Nat) : Nat := l.foldl (fun a b => a * 256 + b) 0

/-- Interpret a byte list as a list of big-endian 32-bit words. -/
def wordsOfBytes (l : List Nat) : List Nat :=
  (chunksB 4 (l.length + 4) l).map beWord

/-- Serialise a list of 32-bit words back to big-endian bytes. -/
def wordsToBytes (ws : List Nat) : List Nat :=
  ws.foldr (fun w acc => beBytes 4 w ++ acc) []

/-! ## SHA-1 (as used by `hmac.new(..., hashlib.sha1)`) -/

/-- SHA-1 round constant for round `i`. -/
def sha1K (i : Nat) : Nat :=
  if i < 20 then 0x5A827999
  else if i < 40 then 0x6ED9EBA1
  else if i < 60 then 0x8F1BBCDC
  else 0xCA62C1D6

/-- SHA-1 round boolean function for round `i`. -/
def sha1F (i b c d : Nat) : Nat :=
  if i < 20 then (b &&& c) ||| ((b ^^^ 0xFFFFFFFF) &&& d)
  else if i < 40 then b ^^^ c ^^^ d
  else if i < 60 then (b &&& c) ||| (b &&& d) ||| (c &&& d)
  else b ^^^ c ^^^ d

/-- Message-schedule extension, kept in reverse order: the head of the
accumulator is the most recent word, so `W[i-3]` is at index 2,
`W[i-8]` at 7, `W[i-14]` at 13 and `W[i-16]` at 15. -/
def sha1ExtendRev : Nat → List Nat → List Nat
  | 0, acc => acc
  | n + 1, acc =>
      sha1ExtendRev n
        (rotl32 (acc.getD 2 0 ^^^ acc.getD 7 0 ^^^ acc.getD 13 0 ^^^ acc.getD 15 0) 1 :: acc)

/-- The 80-word SHA-1 message schedule of one 16-word block. -/
def sha1Schedule (block : List Nat) : List Nat :=
  (sha1ExtendRev 64 block.reverse).reverse

/-- One SHA-1 round step over the five-word state. -/
def sha1Rounds : List (Nat × Nat) → Nat × Nat × Nat × Nat × Nat → Nat × Nat × Nat × Nat × Nat
  | [], st => st
  | (i, wi) :: rest, (a, b, c, d, e) =>
      sha1Rounds rest
        (w32 (rotl32 a 5 + sha1F i b c d + e + sha1K i + wi), a, rotl32 b 30, c, d)

/-- Compress one 64-byte block into the running SHA-1 state. -/
def sha1Block (block : List Nat) (st : Nat × Nat × Nat × Nat × Nat) :
    Nat × Nat × Nat × Nat × Nat :=
  match st with
  | (h0, h1, h2, h3, h4) =>
    match sha1Rounds ((List.range 80).zip (sha1Schedule (wordsOfBytes block))) st with
    | (a, b, c, d, e) => (w32 (h0 + a), w32 (h1 + b), w32 (h2 + c), w32 (h3 + d), w32 (h4 + e))

/-- Fold SHA-1 compression over a list of blocks. -/
def sha1Blocks : List (List Nat) → Nat × Nat × Nat × Nat × Nat → Nat × Nat × Nat × Nat × Nat
  | [], st => st
  | b :: rest, st => sha1Blocks rest (sha1Block b st)

/-- Merkle-Damgard padding shared by SHA-1 and SHA-256: append `0x80`,
zero bytes up to 56 mod 64, then the bit length as 8 big-endian bytes. -/
def mdPad (msg : List Nat) : List Nat :=
  msg ++ 0x80 :: List.replicate ((64 - (msg.length + 9) % 64) % 64) 0
      ++ beBytes 8 (8 * msg.length)

/-- SHA-1 digest of a byte list, as the 20-byte list
(`hashlib.sha1(msg).digest()`). -/
def sha1 (msg : List Nat) : List Nat :=
  let padded := mdPad msg
  match sha1Blocks (chunksB 64 (padded.length + 64) padded)
      (0x67452301, 0xEFCDAB89, 0x98BADCFE, 0x10325476, 0xC3D2E1F0) with
  | (a, b, c, d, e) => wordsToBytes [a, b, c, d, e]

/-! ## SHA-256 (as used by `hashlib.sha256`) -/

/-- The 64 SHA-256 round constants (FIPS 180-4, written in decimal). -/
def sha256K : List Nat :=
  [1116352408, 1899447441, 3049323471, 3921009573, 961987163, 1508970993,
   2453635748, 2870763221, 3624381080, 310598401, 607225278, 1426881987,
   1925078388, 2162078206, 2614888103, 3248222580, 3835390401, 4022224774,
   264347078, 604807628, 770255983, 1249150122, 1555081692, 1996064986,
   2554220882, 2821834349, 2952996808, 3210313671, 3336571891, 3584528711,
   113926993, 338241895, 666307205, 773529912, 1294757372, 1396182291,
   1695183700, 1986661051, 2177026350, 2456956037, 2730485921, 2820302411,
   3259730800, 3345764771, 3516065817, 3600352804, 4094571909, 275423344,
   430227734, 506948616, 659060556, 883997877, 958139571, 1322822218,
   1537002063, 1747873779, 1955562222, 2024104815, 2227730452, 2361852424,
   2428436474, 2756734187, 3204031479, 3329325298]

/-- SHA-256 small sigma 0: `rotr 7 ^ rotr 18 ^ shr 3`. -/
def sha256s0 (x : Nat) : Nat := rotr32 x 7 ^^^ rotr32 x 18 ^^^ (x >>> 3)

/-- SHA-256 small sigma 1: `rotr 17 ^ rotr 19 ^ shr 10`. -/
def sha256s1 (x : Nat) : Nat := rotr32 x 17 ^^^ rotr32 x 19 ^^^ (x >>> 10)

/-- SHA-256 big sigma 0: `rotr 2 ^ rotr 13 ^ rotr 22`. -/
def sha256S0 (x : Nat) : Nat := rotr32 x 2 ^^^ rotr32 x 13 ^^^ rotr32 x 22

/-- SHA-256 big sigma 1: `rotr 6 ^ rotr 11 ^ rotr 25`. -/
def sha256S1 (x : Nat) : Nat := rotr32 x 6 ^^^ rotr32 x 11 ^^^ rotr32 x 25

/-- SHA-256 message-schedule extension, reversed accumulator:
`W[i-2]` is at index 1, `W[i-7]` at 6, `W[i-15]` at 14, `W[i-16]` at 15. -/
def sha256ExtendRev : Nat → List Nat → List Nat
  | 0, acc => acc
  | n + 1, acc =>
      sha256ExtendRev n
        (w32 (sha256s1 (acc.getD 1 0) + acc.getD 6 0 + sha256s0 (acc.getD 14 0) + acc.getD 15 0)
          :: acc)

/-- The 64-word SHA-256 message schedule of one 16-word block. -/
def sha256Schedule (block : List Nat) : List Nat :=
  (sha256ExtendRev 48 block.reverse).reverse

/-- Eight-word SHA-256 working state. -/
abbrev St8 := Nat × Nat × Nat × Nat × Nat × Nat × Nat × Nat

/-- SHA-256 round iteration over (round constant, schedule word) pairs. -/
def sha256Rounds : List (Nat × Nat) → St8 → St8
  | [], st => st
  | (ki, wi) :: rest, (a, b, c, d, e, f, g, h) =>
      let t1 := w32 (h + sha256S1 e + ((e &&& f) ^^^ ((e ^^^ 0xFFFFFFFF) &&& g)) + ki + wi)
      let t2 := w32 (sha256S0 a + ((a &&& b) ^^^ (a &&& c) ^^^ (b &&& c)))
      sha256Rounds rest (w32 (t1 + t2), a, b, c, w32 (d + t1), e, f, g)

/-- Compress one 64-byte block into the running SHA-256 state. -/
def sha256Block (block : List Nat) (st : St8) : St8 :=
  match st with
  | (h0, h1, h2, h3, h4, h5, h6, h7) =>
    match sha256Rounds (sha256K.zip (sha256Schedule (wordsOfBytes block))) st with
    | (a, b, c, d, e, f, g, h) =>
        (w32 (h0 + a), w32 (h1 + b), w32 (h2 + c), w32 (h3 + d),
         w32 (h4 + e), w32 (h5 + f), w32 (h6 + g), w32 (h7 + h))

/-- Fold SHA-256 compression over a list of blocks. -/
def sha256Blocks : List (List Nat) → St8 → St8
  | [], st => st
  | b :: rest, st => sha256Blocks rest (sha256Block b st)

/-- SHA-256 digest of a byte list, as the 32-byte list
(`hashlib.sha256(msg).digest()`). -/
def sha256 (msg : List Nat) : List Nat :=
  let padded := mdPad msg
  match sha256Blocks (chunksB 64 (padded.length + 64) padded)
      (1779033703, 3144134277, 1013904242, 2773480762,
       1359893119, 2600822924, 528734635, 1541459225) with
  | (a, b, c, d, e, f, g, h) => wordsToBytes [a, b, c, d, e, f, g, h]

/-! ## HMAC-SHA1 (`hmac.new(key, msg, hashlib.sha1)`) -/

/-- HMAC-SHA1 with a 64-byte block size, exactly as `hmac.new(key, msg,
hashlib.sha1).digest()`: long keys are hashed, keys are zero-padded to 64
bytes, then the standard opad/xor and ipad/xor double hash is applied. -/
def hmacSha1 (key msg : List Nat) : List Nat :=
  let k0 := if 64 < key.length then sha1 key else key
  let k1 := k0 ++ List.replicate (64 - k0.length) 0
  sha1 ((k1.map (fun b => b ^^^ 0x5C)) ++ sha1 ((k1.map (fun b => b ^^^ 0x36)) ++ msg))

/-! ## Strings, hex, UTF-8, decimal rendering -/

/-- Lowercase hexadecimal digit for a value below 16. -/
def hexChar (n : Nat) : Char :=
  if n < 10 then Char.ofNat (48 + n) else Char.ofNat (87 + n)

/-- Lowercase hexadecimal rendering of a byte list.  Models both
`hashlib...hexdigest()` and `bytes.hex()`. -/
def bytesToHex (l : List Nat) : String :=
  ⟨l.foldr (fun b acc => hexChar (b / 16) :: hexChar (b % 16) :: acc) []⟩

/-- Python `secrets.token_hex` applied to an explicit random byte draw:
the hex rendering of those bytes (`token_hex(16)` draws 16 bytes). -/
def token_hex (draw : List Nat) : String := bytesToHex draw

/-- UTF-8 encoding of a single character (Python `str.encode()`). -/
def utf8Char (c : Char) : List Nat :=
  let n := c.toNat
  if n < 0x80 then [n]
  else if n < 0x800 then [0xC0 ||| (n >>> 6), 0x80 ||| (n &&& 0x3F)]
  else if n < 0x10000 then
    [0xE0 ||| (n >>> 12), 0x80 ||| ((n >>> 6) &&& 0x3F), 0x80 ||| (n &&& 0x3F)]
  else
    [0xF0 ||| (n >>> 18), 0x80 ||| ((n >>> 12) &&& 0x3F),
     0x80 ||| ((n >>> 6) &&& 0x3F), 0x80 ||| (n &&& 0x3F)]

/-- UTF-8 byte encoding of a string (Python `str.encode()`). -/
def strBytes (s : String) : List Nat :=
  s.data.foldr (fun c acc => utf8Char c ++ acc) []

/-- Decimal digit characters of `n`, most significant first (empty for 0).
`fuel` only bounds recursion; any `fuel ≥ n` suffices. -/
def decimalDigitsAux : Nat → Nat → List Char
  | _, 0 => []
  | 0, _ => []
  | fuel + 1, n => decimalDigitsAux fuel (n / 10) ++ [Char.ofNat (48 + n % 10)]

/-- Decimal rendering of a natural number (Python `str(n)` for `n ≥ 0`). -/
def natDecimal (n : Nat) : String :=
  if n = 0 then "0" else ⟨decimalDigitsAux n n⟩

/-- Python `str.zfill`: left-pad with zero characters to width `w`
(no sign handling needed: inputs here are decimal digit strings). -/
def zfill (s : String) (w : Nat) : String :=
  ⟨List.replicate (w - s.length) '0' ++ s.data⟩

/-! ## Base32 decoding (`base64.b32decode(s, casefold=True)`) -/

/-- Python `bytes.upper`: map lowercase ASCII letters to uppercase. -/
def charUpper (c : Char) : Char :=
  if 97 ≤ c.toNat ∧ c.toNat ≤ 122 then Char.ofNat (c.toNat - 32) else c

/-- Value of one RFC 4648 base32 alphabet character (A-Z, 2-7), or
`none` for a character outside the alphabet. -/
def b32rev (c : Char) : Option Nat :=
  if 65 ≤ c.toNat ∧ c.toNat ≤ 90 then some (c.toNat - 65)
  else if 50 ≤ c.toNat ∧ c.toNat ≤ 55 then some (c.toNat - 24)
  else none

/-- CPython `base64.b32decode(s, casefold=True)`; `none` models a raised
`binascii.Error` (non-multiple-of-8 length, bad padding, character outside
the alphabet) or the ASCII-encoding error for non-ASCII input.  Following
CPython, the input is uppercased, trailing padding is stripped and counted,
full 8-character quanta decode to 5 bytes, and the final partial quantum
keeps 4, 3, 2 or 1 bytes for 1, 3, 4 or 6 padding characters. -/
def b32decode (s : String) : Option (List Nat) :=
  let cs := s.data
  if cs.any (fun c => 128 ≤ c.toNat) then none
  else if cs.length % 8 ≠ 0 then none
  else
    let up := cs.map charUpper
    let stripped := (up.reverse.dropWhile (fun c => c = '=')).reverse
    let padchars := up.length - stripped.length
    if stripped.any (fun c => (b32rev c).isNone) then none
    else
      let vals := stripped.map (fun c => (b32rev c).getD 0)
      let m := vals.length % 8
      let fullB := (chunksB 8 (vals.length + 8) (vals.take (vals.length - m))).foldr
          (fun g acc => beBytes 5 (g.foldl (fun a v => a * 32 + v) 0) ++ acc) []
      let lastB := beBytes 5
          (((vals.drop (vals.length - m)).foldl (fun a v => a * 32 + v) 0) <<< (5 * (8 - m)))
      match padchars with
      | 0 => some fullB
      | 1 => some (fullB ++ lastB.take 4)
      | 3 => some (fullB ++ lastB.take 3)
      | 4 => some (fullB ++ lastB.take 2)
      | 6 => some (fullB ++ lastB.take 1)
      | _ => none

/-! ## The source operations (`SecureLoginSystem`) -/

/-- Embeds `SecureLoginSystem.hash_password(password, salt=None)`.
The random draw of `secrets.token_hex(16)` is made explicit as
`freshDraw` (the 16 random bytes).  Python truthiness: `if not salt`
holds for both `None` and the empty string, so either replaces the
salt by `token_hex(freshDraw)`.  The digest is
`sha256(salt.encode() + password.encode()).hexdigest()`. -/
def hash_password (password : String) (salt : Option String) (freshDraw : List Nat) :
    String × String :=
  let s :=
    match salt with
    | none => token_hex freshDraw
    | some t => if t = "" then token_hex freshDraw else t
  (bytesToHex (sha256 (strBytes s ++ strBytes password)), s)

/-- Embeds `SecureLoginSystem.generate_totp_code(secret, time_step=30)`.
The wall clock `time.time()` is the explicit argument `t` (in seconds);
`counter = int(time.time() // time_step)`.  `none` models a raised
exception: a `binascii.Error` from `base64.b32decode(secret, True)`, or
a `struct.error` from `struct.pack` when the counter exceeds the
unsigned 64-bit range.  The HMAC-SHA1 digest is indexed exactly as the
source does: `h[-1] & 0x0F` for the offset, then the shift-or chain
with the `0x7F` mask on the first byte. -/
def generate_totp_code (secret : String) (t : Nat) (time_step : Nat) : Option String :=
  match b32decode secret with
  | none => none
  | some key =>
    let counter := t / time_step
    if counter < 2 ^ 64 then
      let counter_bytes := beBytes 8 counter
      let h := hmacSha1 key counter_bytes
      let offset := h.getD (h.length - 1) 0 &&& 0x0F
      let binary :=
        ((h.getD offset 0 &&& 0x7F) <<< 24) ||| ((h.getD (offset + 1) 0 &&& 0xFF) <<< 16) |||
          ((h.getD (offset + 2) 0 &&& 0xFF) <<< 8) ||| (h.getD (offset + 3) 0 &&& 0xFF)
      some (zfill (natDecimal (binary % 1000000)) 6)
    else none

/-- Embeds `SecureLoginSystem.verify_totp(secret, code)`: regenerate the
current code (default 30-second step, same clock `t`) and compare with
`==`.  `none` models the exception propagated from generation. -/
def verify_totp (secret code : String) (t : Nat) : Option Bool :=
  match generate_totp_code secret t 30 with
  | none => none
  | some c => some (c == code)

/-- One row of the `users` table (the columns `login` reads). -/
structure UserRecord where
  password_hash : String
  password_salt : String
  two_factor_enabled : Nat
  two_factor_secret : Option String
deriving DecidableEq

/-- The three Python values `SecureLoginSystem.login` can return:
`True`, `False` and the string `"2FA_REQUIRED"`. -/
inductive LoginResult where
  | retTrue : LoginResult
  | retFalse : LoginResult
  | ret2FARequired : LoginResult
deriving DecidableEq

/-- The mutable state `login` can read or write: the `users` table
(an association list keyed by the UNIQUE `username` column) and the
`current_user` field. -/
structure SysState where
  users : List (String × UserRecord)
  current_user : Option String
deriving DecidableEq

/-- The `SELECT ... FROM users WHERE username = ?` row lookup. -/
def lookupUser (users : List (String × UserRecord)) (username : String) :
    Option UserRecord :=
  match users.find? (fun u => u.1 == username) with
  | none => none
  | some u => some u.2

/-- Embeds `SecureLoginSystem.login(username, password, totp_code=None)`.
Returns the Python return value together with the post-state; `none`
models a raised exception (a `TypeError` when the stored 2FA secret is
NULL, or the exceptions of `verify_totp`).  Python truthiness again:
`if not totp_code` holds for `None` and for the empty string, and
`if two_factor_enabled` holds for any non-zero integer.  On the success
path the source assigns `self.current_user = username`. -/
def login (st : SysState) (username password : String) (totp_code : Option String)
    (t : Nat) (freshDraw : List Nat) : Option (LoginResult × SysState) :=
  match lookupUser st.users username with
  | none => some (.retFalse, st)
  | some u =>
    let calculated_hash := (hash_password password (some u.password_salt) freshDraw).1
    if calculated_hash ≠ u.password_hash then some (.retFalse, st)
    else if u.two_factor_enabled ≠ 0 then
      if totp_code = none ∨ totp_code = some "" then some (.ret2FARequired, st)
      else
        match u.two_factor_secret with
        | none => none
        | some secret =>
          match verify_totp secret (totp_code.getD "") t with
          | none => none
          | some b =>
            if b then some (.retTrue, ⟨st.users, some username⟩)
            else some (.retFalse, st)
    else some (.retTrue, ⟨st.users, some username⟩)

/-! ## Spec-side definitions

These follow the wording of the specification (sections 4.1-4.3) and are
compared with the source embedding above in refinement theorems. -/

/-- Spec `PasswordHasher.verify(password, salt, expectedDigest)`:
recompute the digest with the given salt and compare. -/
def pwVerify (password salt expectedDigest : String) (freshDraw : List Nat) : Bool :=
  (hash_password password (some salt) freshDraw).1 == expectedDigest

/-- Spec `AuthOutcome`: the four terminal outcomes of AuthenticationFlow. -/
inductive AuthOutcome where
  | Success : AuthOutcome
  | InvalidCredentials : AuthOutcome
  | TwoFactorRequired : AuthOutcome
  | InvalidTwoFactorCode : AuthOutcome
deriving DecidableEq

/-- Spec `AuthenticationFlow.authenticate(record, attempt)`, written from
the five numbered steps of section 4.3: no record or failed password
verification gives `InvalidCredentials`; a verified password with 2FA
disabled gives `Success`; with 2FA enabled and no submitted code (in the
code's optional-argument model, `None` or the empty string),
`TwoFactorRequired`; otherwise `Success` or `InvalidTwoFactorCode`
according to `TotpEngine.verify`. -/
def authenticate (record : Option UserRecord) (password : String)
    (totpCode : Option String) (t : Nat) (freshDraw : List Nat) : Option AuthOutcome :=
  match record with
  | none => some .InvalidCredentials
  | some r =>
    if pwVerify password r.password_salt r.password_hash freshDraw then
      if r.two_factor_enabled ≠ 0 then
        if totpCode = none ∨ totpCode = some "" then some .TwoFactorRequired
        else
          match r.two_factor_secret with
          | none => none
          | some secret =>
            match verify_totp secret (totpCode.getD "") t with
            | none => none
            | some b => if b then some .Success else some .InvalidTwoFactorCode
      else some .Success
    else some .InvalidCredentials

/-- The Python value that `login` returns for each abstract outcome:
`Success` comes back as `True`, `TwoFactorRequired` as `"2FA_REQUIRED"`,
and both `InvalidCredentials` and `InvalidTwoFactorCode` as `False`. -/
def outcomeValue : AuthOutcome → LoginResult
  | .Success => .retTrue
  | .InvalidCredentials => .retFalse
  | .TwoFactorRequired => .ret2FARequired
  | .InvalidTwoFactorCode => .retFalse

/-- Spec section 4.2 `generate` (HOTP with dynamic truncation), written
from the spec's own words: 8-byte big-endian counter, HMAC-SHA1 keyed by
the secret bytes, `offset = mac[19] & 0x0F`, the four bytes
`mac[offset..offset+4]` with the first masked by `0x7F` read as a
big-endian unsigned integer, reduced mod 1000000 and zero-padded to six
digits. -/
def hotp_spec (key : List Nat) (counter : Nat) : String :=
  let counterBytes := beBytes 8 counter
  let mac := hmacSha1 key counterBytes
  let offset := mac.getD 19 0 &&& 0x0F
  let binCode :=
    (mac.getD offset 0 &&& 0x7F) * 2 ^ 24 + mac.getD (offset + 1) 0 * 2 ^ 16 +
      mac.getD (offset + 2) 0 * 2 ^ 8 + mac.getD (offset + 3) 0
  zfill (natDecimal (binCode % 1000000)) 6

/-! ## Helper lemmas -/

theorem beBytes_length (k n : Nat) : (beBytes k n).length = k := by
  induction k generalizing n with
  | zero => rfl
  | succ k ih => simp [beBytes, ih]

theorem beBytes_mem_lt {k n : Nat} : ∀ b ∈ beBytes k n, b < 256 := by
  induction k generalizing n with
  | zero => simp [beBytes]
  | succ k ih =>
    intro b hb
    rcases List.mem_append.1 hb with h | h
    · exact ih b h
    · simp only [List.mem_singleton] at h
      omega

theorem wordsToBytes_length (ws : List Nat) : (wordsToBytes ws).length = 4 * ws.length := by
  induction ws with
  | nil => rfl
  | cons w rest ih =>
    simp only [wordsToBytes, List.foldr_cons, List.length_append, beBytes_length,
      List.length_cons] at ih ⊢
    omega

theorem wordsToBytes_mem_lt (ws : List Nat) : ∀ b ∈ wordsToBytes ws, b < 256 := by
  induction ws with
  | nil => simp [wordsToBytes]
  | cons w rest ih =>
    intro b hb
    simp only [wordsToBytes, List.foldr_cons] at hb
    rcases List.mem_append.1 hb with h | h
    · exact beBytes_mem_lt b h
    · exact ih b h

theorem sha1_length (msg : List Nat) : (sha1 msg).length = 20 := by
  simp only [sha1]
  simp [wordsToBytes_length]

theorem sha1_mem_lt (msg : List Nat) : ∀ b ∈ sha1 msg, b < 256 := by
  simp only [sha1]
  exact wordsToBytes_mem_lt _

theorem hmacSha1_length (key msg : List Nat) : (hmacSha1 key msg).length = 20 :=
  sha1_length _

theorem hmacSha1_mem_lt (key msg : List Nat) : ∀ b ∈ hmacSha1 key msg, b < 256 :=
  sha1_mem_lt _

theorem sha256_length (msg : List Nat) : (sha256 msg).length = 32 := by
  simp only [sha256]
  simp [wordsToBytes_length]

theorem sha256_mem_lt (msg : List Nat) : ∀ b ∈ sha256 msg, b < 256 := by
  simp only [sha256]
  exact wordsToBytes_mem_lt _

theorem getD_lt_256 {l : List Nat} (h : ∀ b ∈ l, b < 256) (i : Nat) : l.getD i 0 < 256 := by
  induction l generalizing i with
  | nil => simp [List.getD_nil]
  | cons x xs ih =>
    cases i with
    | zero => exact h x (List.mem_cons_self x xs)
    | succ j =>
      rw [List.getD_cons_succ]
      exact ih (fun b hb => h b (List.mem_cons_of_mem x hb)) j

/-- Bitwise or coincides with addition when the summands occupy disjoint
bit ranges: `(a * 2 ^ k) ||| b = a * 2 ^ k + b` for `b < 2 ^ k`. -/
theorem mul_pow_or_eq_add {k b : Nat} (a : Nat) (hb : b < 2 ^ k) :
    (a * 2 ^ k) ||| b = a * 2 ^ k + b := by
  induction k generalizing b with
  | zero =>
    have hb0 : b = 0 := by omega
    simp [hb0]
  | succ k ih =>
    have hp : 2 ^ (k + 1) = 2 * 2 ^ k := by ring
    have hb2 : b / 2 < 2 ^ k := by omega
    have h1 : a * 2 ^ (k + 1) / 2 = a * 2 ^ k := by
      have h : a * 2 ^ (k + 1) = a * 2 ^ k * 2 := by ring
      omega
    have h2 : a * 2 ^ (k + 1) % 2 = 0 := by
      have h : a * 2 ^ (k + 1) = a * 2 ^ k * 2 := by ring
      omega
    have hdiv : (a * 2 ^ (k + 1) ||| b) / 2 = a * 2 ^ k + b / 2 := by
      rw [Nat.or_div_two, h1, ih hb2]
    have hmod : (a * 2 ^ (k + 1) ||| b) % 2 = b % 2 := by
      have hiff := Nat.or_mod_two_eq_one (a := a * 2 ^ (k + 1)) (b := b)
      rcases Nat.mod_two_eq_zero_or_one (a * 2 ^ (k + 1) ||| b) with h | h
      · rcases Nat.mod_two_eq_zero_or_one b with h' | h'
        · omega
        · have := hiff.2 (Or.inr h')
          omega
      · have := hiff.1 h
        omega
    omega

/-- The source's shift-and-or chain over four bytes equals the big-endian
arithmetic reading of those bytes. -/
theorem byte_or_chain_eq (x y z v : Nat) (_hx : x < 256) (hy : y < 256)
    (hz : z < 256) (hv : v < 256) :
    (x <<< 24) ||| (y <<< 16) ||| (z <<< 8) ||| v =
      x * 2 ^ 24 + y * 2 ^ 16 + z * 2 ^ 8 + v := by
  have e24 : (2 : Nat) ^ 24 = 16777216 := by norm_num
  have e16 : (2 : Nat) ^ 16 = 65536 := by norm_num
  have e8 : (2 : Nat) ^ 8 = 256 := by norm_num
  rw [Nat.shiftLeft_eq, Nat.shiftLeft_eq, Nat.shiftLeft_eq]
  have h1 : x * 2 ^ 24 ||| y * 2 ^ 16 = x * 2 ^ 24 + y * 2 ^ 16 :=
    mul_pow_or_eq_add x (by rw [e16, e24] at *; omega)
  have h2 : x * 2 ^ 24 + y * 2 ^ 16 ||| z * 2 ^ 8 =
      x * 2 ^ 24 + y * 2 ^ 16 + z * 2 ^ 8 := by
    have hxy : x * 2 ^ 24 + y * 2 ^ 16 = (x * 2 ^ 8 + y) * 2 ^ 16 := by ring
    have hb : z * 2 ^ 8 < 2 ^ 16 := by rw [e8, e16] at *; omega
    rw [hxy, mul_pow_or_eq_add (x * 2 ^ 8 + y) hb, ← hxy]
  have h3 : x * 2 ^ 24 + y * 2 ^ 16 + z * 2 ^ 8 ||| v =
      x * 2 ^ 24 + y * 2 ^ 16 + z * 2 ^ 8 + v := by
    have hxyz : x * 2 ^ 24 + y * 2 ^ 16 + z * 2 ^ 8 =
        (x * 2 ^ 16 + y * 2 ^ 8 + z) * 2 ^ 8 := by ring
    have hb : v < 2 ^ 8 := by rw [e8] at *; omega
    rw [hxyz, mul_pow_or_eq_add (x * 2 ^ 16 + y * 2 ^ 8 + z) hb, ← hxyz]
  rw [h1, h2, h3]

theorem and_255_of_lt {x : Nat} (h : x < 256) : x &&& 0xFF = x := by
  have h2 : (0xFF : Nat) = 2 ^ 8 - 1 := rfl
  rw [h2, Nat.and_pow_two_sub_one_eq_mod, Nat.mod_eq_of_lt h]

theorem and_15_lt (x : Nat) : x &&& 0x0F < 16 := by
  have h := Nat.and_lt_two_pow x (y := 0x0F) (n := 4) (by norm_num)
  norm_num at h
  exact h

theorem and_127_lt (x : Nat) : x &&& 0x7F < 128 := by
  have h := Nat.and_lt_two_pow x (y := 0x7F) (n := 7) (by norm_num)
  norm_num at h
  exact h

theorem decimalDigitsAux_digits {fuel n : Nat} :
    ∀ c ∈ decimalDigitsAux fuel n, 48 ≤ c.toNat ∧ c.toNat ≤ 57 := by
  induction fuel generalizing n with
  | zero => cases n <;> simp [decimalDigitsAux]
  | succ f ih =>
    cases n with
    | zero => simp [decimalDigitsAux]
    | succ m =>
      intro c hc
      simp only [decimalDigitsAux] at hc
      rcases List.mem_append.1 hc with h | h
      · exact ih c h
      · simp only [List.mem_singleton] at h
        subst h
        have h10 : (m + 1) % 10 < 10 := Nat.mod_lt _ (by omega)
        set r := (m + 1) % 10 with hr
        clear_value r
        interval_cases r <;> decide

theorem decimalDigitsAux_length {fuel n k : Nat} (h : n < 10 ^ k) :
    (decimalDigitsAux fuel n).length ≤ k := by
  induction fuel generalizing n k with
  | zero => cases n <;> simp [decimalDigitsAux]
  | succ f ih =>
    cases n with
    | zero => simp [decimalDigitsAux]
    | succ m =>
      simp only [decimalDigitsAux, List.length_append, List.length_cons, List.length_nil]
      cases k with
      | zero => omega
      | succ k2 =>
        have hp : 10 ^ (k2 + 1) = 10 ^ k2 * 10 := by ring
        have hdiv : (m + 1) / 10 < 10 ^ k2 := by omega
        have := ih hdiv
        omega

theorem natDecimal_digits {n : Nat} :
    ∀ c ∈ (natDecimal n).data, 48 ≤ c.toNat ∧ c.toNat ≤ 57 := by
  unfold natDecimal
  split
  · decide
  · exact decimalDigitsAux_digits

theorem string_mk_length (l : List Char) : (String.mk l).length = l.length := rfl

theorem natDecimal_length_le {n k : Nat} (hn : n < 10 ^ k) (hk : 1 ≤ k) :
    (natDecimal n).length ≤ k := by
  unfold natDecimal
  split
  · have h0 : ("0" : String).length = 1 := rfl
    omega
  · exact decimalDigitsAux_length hn

theorem natDecimal_length_le6 {n : Nat} (hn : n < 1000000) :
    (natDecimal n).length ≤ 6 :=
  natDecimal_length_le (k := 6) (by norm_num; omega) (by norm_num)

theorem zfill_length {s : String} {w : Nat} (h : s.length ≤ w) :
    (zfill s w).length = w := by
  have h1 : (zfill s w).length = (w - s.length) + s.length := by
    simp only [zfill, string_mk_length, List.length_append, List.length_replicate]
    rfl
  omega

theorem zfill_digits {s : String} {w : Nat}
    (h : ∀ c ∈ s.data, 48 ≤ c.toNat ∧ c.toNat ≤ 57) :
    ∀ c ∈ (zfill s w).data, 48 ≤ c.toNat ∧ c.toNat ≤ 57 := by
  intro c hc
  simp only [zfill] at hc
  rcases List.mem_append.1 hc with h1 | h1
  · have := List.eq_of_mem_replicate h1
    subst this
    decide
  · exact h c h1

/-- Shape of every code the source can generate: defined, exactly six
characters, all decimal digits. -/
theorem generate_shape {secret : String} {key : List Nat} {t : Nat}
    (hdec : b32decode secret = some key) (hctr : t / 30 < 2 ^ 64) :
    ∃ c, generate_totp_code secret t 30 = some c ∧ c.length = 6 ∧
      ∀ ch ∈ c.data, 48 ≤ ch.toNat ∧ ch.toNat ≤ 57 := by
  simp only [generate_totp_code, hdec]
  rw [if_pos hctr]
  exact ⟨_, rfl, zfill_length (natDecimal_length_le6 (Nat.mod_lt _ (by omega))),
    zfill_digits natDecimal_digits⟩

theorem strBytes_foldr_append (l : List Char) (x : List Nat) :
    l.foldr (fun c acc => utf8Char c ++ acc) x =
      l.foldr (fun c acc => utf8Char c ++ acc) [] ++ x := by
  induction l with
  | nil => rfl
  | cons c cs ih => simp [ih]

theorem strBytes_append (s t : String) :
    strBytes (s ++ t) = strBytes s ++ strBytes t := by
  unfold strBytes
  rw [String.data_append, List.foldr_append, strBytes_foldr_append]

/-- Lowercase-hexadecimal character predicate (digits 0-9 or letters a-f). -/
abbrev isLowerHex (c : Char) : Prop :=
  (48 ≤ c.toNat ∧ c.toNat ≤ 57) ∨ (97 ≤ c.toNat ∧ c.toNat ≤ 102)

theorem hexChar_isLowerHex {n : Nat} (h : n < 16) : isLowerHex (hexChar n) := by
  interval_cases n <;> decide

theorem bytesToHex_data_chars {l : List Nat} (h : ∀ b ∈ l, b < 256) :
    ∀ c ∈ l.foldr (fun b acc => hexChar (b / 16) :: hexChar (b % 16) :: acc) [],
      isLowerHex c := by
  induction l with
  | nil => simp
  | cons b bs ih =>
    intro c hc
    rw [List.foldr_cons] at hc
    rcases List.mem_cons.1 hc with h1 | hc2
    · subst h1
      exact hexChar_isLowerHex (by have := h b (List.mem_cons_self b bs); omega)
    · rcases List.mem_cons.1 hc2 with h1 | hc3
      · subst h1
        exact hexChar_isLowerHex (Nat.mod_lt _ (by omega))
      · exact ih (fun x hx => h x (List.mem_cons_of_mem b hx)) c hc3

theorem bytesToHex_chars {l : List Nat} (h : ∀ b ∈ l, b < 256) :
    ∀ c ∈ (bytesToHex l).data, isLowerHex c :=
  bytesToHex_data_chars h

theorem bytesToHex_length (l : List Nat) : (bytesToHex l).length = 2 * l.length := by
  induction l with
  | nil => rfl
  | cons b bs ih =>
    simp only [bytesToHex, String.length, List.foldr_cons, List.length_cons] at ih ⊢
    omega

/-! ## Concrete states used by counterexamples and witnesses -/

/-- SHA-256 hex digest of the string `spw` (salt `s` concatenated with
password `pw`), i.e. the stored `password_hash` for that credential. -/
def aliceHash : String :=
  "31642d14ee83ae98af5b1db2816650121808ade58590b74a897169cfb1d88e8a"

/-- A user row with 2FA enabled and TOTP secret `AAAAAAAA`. -/
def rec2FA : UserRecord := ⟨aliceHash, "s", 1, some "AAAAAAAA"⟩

/-- A user row with 2FA disabled. -/
def recNo2FA : UserRecord := ⟨aliceHash, "s", 0, none⟩

/-- A state holding only the 2FA-enabled user `alice`, nobody logged in. -/
def st2FA : SysState := ⟨[("alice", rec2FA)], none⟩

/-- A state holding only the 2FA-disabled user `alice`, nobody logged in. -/
def stNo2FA : SysState := ⟨[("alice", recNo2FA)], none⟩

/-! ## Claim C1 -/

/-- Claim C1, counterexample.  The claim asserts that the four outcomes are
pairwise-distinct returned values, in particular that `InvalidCredentials`
and `InvalidTwoFactorCode` are distinguishable.  Concretely, the login
attempt for the unknown user `bob` (InvalidCredentials) and the attempt
for `alice` with a correct password but wrong TOTP code
(InvalidTwoFactorCode) return the identical value `False`, with identical
post-state. -/
theorem login_invalid_outcomes_indistinguishable_cex :
    login st2FA "bob" "pw" (some "000000") 0 [] = some (.retFalse, st2FA) ∧
    login st2FA "alice" "pw" (some "000000") 0 [] = some (.retFalse, st2FA) := by
  constructor <;> decide

/-- Helper: `login` equals the spec's four-outcome `authenticate` composed
with the value map that renders each outcome as the Python return value
and applies the Success side effect.  Shared by the C1 and C8 arguments. -/
theorem login_eq_map_authenticate (st : SysState) (username password : String)
    (totp_code : Option String) (t : Nat) (draw : List Nat) :
    login st username password totp_code t draw =
      Option.map (fun o => (outcomeValue o,
          if o = AuthOutcome.Success then (⟨st.users, some username⟩ : SysState) else st))
        (authenticate (lookupUser st.users username) password totp_code t draw) := by
  cases hl : lookupUser st.users username with
  | none => simp [login, authenticate, hl, outcomeValue]
  | some u =>
    simp only [login, authenticate, pwVerify, hl]
    by_cases hpw : (hash_password password (some u.password_salt) draw).1 = u.password_hash
    · simp only [hpw, ne_eq, not_true_eq_false, if_false, beq_self_eq_true, if_true]
      by_cases h2 : u.two_factor_enabled = 0
      · simp only [h2, not_true_eq_false, if_false]
        rfl
      · simp only [ne_eq, h2, not_false_eq_true, if_true]
        by_cases hc : totp_code = none ∨ totp_code = some ""
        · rw [if_pos hc, if_pos hc]
          rfl
        · rw [if_neg hc, if_neg hc]
          cases u.two_factor_secret with
          | none => rfl
          | some sec =>
            show (match verify_totp sec (totp_code.getD "") t with
                | none => none
                | some b =>
                  if b then some (LoginResult.retTrue, (⟨st.users, some username⟩ : SysState))
                  else some (LoginResult.retFalse, st)) =
              Option.map (fun o => (outcomeValue o,
                  if o = AuthOutcome.Success then (⟨st.users, some username⟩ : SysState) else st))
                (match verify_totp sec (totp_code.getD "") t with
                | none => none
                | some b =>
                  if b then some AuthOutcome.Success else some AuthOutcome.InvalidTwoFactorCode)
            cases verify_totp sec (totp_code.getD "") t with
            | none => rfl
            | some b => cases b <;> rfl
    · simp only [ne_eq, hpw, not_false_eq_true, if_true, beq_iff_eq, if_false]
      rfl

/-- Claim C1, amended.  `login` implements exactly the four-step decision
procedure of the spec's `authenticate` (InvalidCredentials when no record
resolves or the password fails; Success when the password verifies and 2FA
is off; TwoFactorRequired when 2FA is on and no code was submitted;
Success or InvalidTwoFactorCode by TOTP verification otherwise), but it
returns each outcome through the value map `Success ↦ True`,
`TwoFactorRequired ↦ "2FA_REQUIRED"`, `InvalidCredentials ↦ False`,
`InvalidTwoFactorCode ↦ False`: only three distinct values, with the two
failure outcomes collapsed to the same value `False`. -/
theorem login_refines_authenticate (st : SysState) (username password : String)
    (totp_code : Option String) (t : Nat) (draw : List Nat) :
    login st username password totp_code t draw =
      Option.map (fun o => (outcomeValue o,
          if o = AuthOutcome.Success then (⟨st.users, some username⟩ : SysState) else st))
        (authenticate (lookupUser st.users username) password totp_code t draw) :=
  login_eq_map_authenticate st username password totp_code t draw

/-! ## Claim C2 -/

/-- Claim C2, counterexample.  The round-trip `verify(p, s, hash(p, s).digest)`
fails for the empty salt: `hash_password` treats an empty salt as absent
(Python truthiness) and substitutes a fresh random salt, so hashing with
salt `""` under one random draw and re-verifying under another compares
digests of different salted inputs. -/
theorem password_roundtrip_empty_salt_cex :
    pwVerify "x" "" (hash_password "x" (some "") [0]).1 [1] = false := by
  decide

/-- Claim C2, amended.  For every password `p` and every nonempty salt `s`,
hashing `p` with salt `s` and then verifying `p` against the returned
digest using salt `s` (recomputing `hash_password` and comparing, as
`login` does) yields true, under any random draws. -/
theorem password_roundtrip_nonempty_salt (p s : String) (d1 d2 : List Nat)
    (hs : s ≠ "") :
    pwVerify p s (hash_password p (some s) d1).1 d2 = true := by
  simp only [pwVerify, hash_password, if_neg hs]
  exact beq_self_eq_true _

/-- Claim C2, witness for the amended round-trip at a concrete credential. -/
theorem password_roundtrip_nonempty_salt_witness :
    ("s" : String) ≠ "" ∧ pwVerify "pw" "s" (hash_password "pw" (some "s") []).1 [] = true :=
  ⟨by decide, password_roundtrip_nonempty_salt "pw" "s" [] [] (by decide)⟩

/-! ## Claim C3 -/

/-- Claim C3.  For every secret (given as the base32 text whose decoding
is the key, exactly as the source passes `b32decode(secret, True)` to
HMAC) and every wall-clock time whose 30-second counter fits the unsigned
64-bit packing, the generated code follows the RFC 4226 steps exactly as
the spec words them: 8-byte big-endian counter, HMAC-SHA1, dynamic
truncation with the `0x7F` mask read as a big-endian integer, reduction
mod 1000000, zero-padding to six digits. -/
theorem generate_totp_follows_hotp (secret : String) (key : List Nat) (t : Nat)
    (hdec : b32decode secret = some key) (hctr : t / 30 < 2 ^ 64) :
    generate_totp_code secret t 30 = some (hotp_spec key (t / 30)) := by
  simp only [generate_totp_code, hotp_spec, hdec]
  rw [if_pos hctr]
  have hm := hmacSha1_mem_lt key (beBytes 8 (t / 30))
  have hl := hmacSha1_length key (beBytes 8 (t / 30))
  set m := hmacSha1 key (beBytes 8 (t / 30)) with hmdef
  rw [hl]
  have e19 : (20 : Nat) - 1 = 19 := rfl
  rw [e19]
  have e : ((m.getD (m.getD 19 0 &&& 0x0F) 0 &&& 0x7F) <<< 24) |||
      ((m.getD ((m.getD 19 0 &&& 0x0F) + 1) 0 &&& 0xFF) <<< 16) |||
      ((m.getD ((m.getD 19 0 &&& 0x0F) + 2) 0 &&& 0xFF) <<< 8) |||
      (m.getD ((m.getD 19 0 &&& 0x0F) + 3) 0 &&& 0xFF) =
      (m.getD (m.getD 19 0 &&& 0x0F) 0 &&& 0x7F) * 2 ^ 24 +
      m.getD ((m.getD 19 0 &&& 0x0F) + 1) 0 * 2 ^ 16 +
      m.getD ((m.getD 19 0 &&& 0x0F) + 2) 0 * 2 ^ 8 +
      m.getD ((m.getD 19 0 &&& 0x0F) + 3) 0 := by
    rw [and_255_of_lt (getD_lt_256 hm _), and_255_of_lt (getD_lt_256 hm _),
      and_255_of_lt (getD_lt_256 hm _)]
    exact byte_or_chain_eq _ _ _ _
      (Nat.lt_trans (and_127_lt _) (by norm_num))
      (getD_lt_256 hm _) (getD_lt_256 hm _) (getD_lt_256 hm _)
  rw [e]

/-- Claim C3, witness: the all-zero five-byte key at counter 0. -/
theorem generate_totp_follows_hotp_witness :
    b32decode "AAAAAAAA" = some [0, 0, 0, 0, 0] ∧ (0 : Nat) / 30 < 2 ^ 64 ∧
    generate_totp_code "AAAAAAAA" 0 30 = some (hotp_spec [0, 0, 0, 0, 0] (0 / 30)) :=
  ⟨by decide, by decide,
    generate_totp_follows_hotp "AAAAAAAA" [0, 0, 0, 0, 0] 0 (by decide) (by decide)⟩

/-! ## Claim C4 -/

/-- Claim C4.  TOTP round-trip: for every secret that base32-decodes and
every time whose counter fits 64 bits, verifying the freshly generated
code at the same counter succeeds. -/
theorem totp_roundtrip (secret : String) (key : List Nat) (t : Nat)
    (hdec : b32decode secret = some key) (hctr : t / 30 < 2 ^ 64) :
    verify_totp secret ((generate_totp_code secret t 30).getD "") t = some true := by
  obtain ⟨c, hc, -, -⟩ := generate_shape hdec hctr
  simp [verify_totp, hc]

/-- Claim C4, witness at the concrete secret `AAAAAAAA` and time 0. -/
theorem totp_roundtrip_witness :
    b32decode "AAAAAAAA" = some [0, 0, 0, 0, 0] ∧ (0 : Nat) / 30 < 2 ^ 64 ∧
    verify_totp "AAAAAAAA" ((generate_totp_code "AAAAAAAA" 0 30).getD "") 0 = some true :=
  ⟨by decide, by decide, totp_roundtrip "AAAAAAAA" [0, 0, 0, 0, 0] 0 (by decide) (by decide)⟩

/-! ## Claim C5 -/

/-- Claim C5.  Non-enumeration: a login attempt for a username with no
record and a login attempt for an existing record whose password check
fails produce the identical outcome — the same returned value `False`
and the same (unchanged) state. -/
theorem unknown_user_wrong_password_identical (st : SysState) (u1 u2 password : String)
    (totp_code : Option String) (t : Nat) (draw : List Nat) (r : UserRecord)
    (h1 : lookupUser st.users u1 = none)
    (h2 : lookupUser st.users u2 = some r)
    (h3 : (hash_password password (some r.password_salt) draw).1 ≠ r.password_hash) :
    login st u1 password totp_code t draw = some (.retFalse, st) ∧
      login st u2 password totp_code t draw = some (.retFalse, st) := by
  constructor
  · simp only [login, h1]
  · simp only [login, h2]
    rw [if_pos h3]

/-- Claim C5, witness: unknown `bob` versus `alice` with a wrong password. -/
theorem unknown_user_wrong_password_identical_witness :
    lookupUser st2FA.users "bob" = none ∧
    lookupUser st2FA.users "alice" = some rec2FA ∧
    (hash_password "wrong" (some rec2FA.password_salt) []).1 ≠ rec2FA.password_hash ∧
    (login st2FA "bob" "wrong" none 0 [] = some (.retFalse, st2FA) ∧
      login st2FA "alice" "wrong" none 0 [] = some (.retFalse, st2FA)) :=
  ⟨by decide, by decide, by decide,
    unknown_user_wrong_password_identical st2FA "bob" "alice" "wrong" none 0 [] rec2FA
      (by decide) (by decide) (by decide)⟩

/-! ## Claim C6 -/

/-- Claim C6, counterexample.  Called with the explicitly supplied empty
salt, `hash_password` does not return the supplied salt: it substitutes
the fresh random draw (here `[0]`, hex `00`), and two calls with
different draws return different pairs. -/
theorem hash_empty_salt_cex :
    (hash_password "p" (some "") [0]).2 = "00" ∧ ("00" : String) ≠ "" ∧
      hash_password "p" (some "") [0] ≠ hash_password "p" (some "") [1] := by
  refine ⟨by decide, by decide, by decide⟩

/-- Claim C6, amended.  For every password `p` and every nonempty salt
`s`, two calls to `hash_password` with the salt explicitly supplied
return the same `(digest, salt)` pair regardless of the random draws,
and the returned salt equals the supplied salt. -/
theorem hash_deterministic_nonempty_salt (p s : String) (d1 d2 : List Nat)
    (hs : s ≠ "") :
    hash_password p (some s) d1 = hash_password p (some s) d2 ∧
      (hash_password p (some s) d1).2 = s := by
  refine ⟨?_, ?_⟩ <;> simp [hash_password, if_neg hs]

/-- Claim C6, witness at a concrete nonempty salt. -/
theorem hash_deterministic_nonempty_salt_witness :
    ("s" : String) ≠ "" ∧
      (hash_password "pw" (some "s") [] = hash_password "pw" (some "s") [7] ∧
        (hash_password "pw" (some "s") []).2 = "s") :=
  ⟨by decide, hash_deterministic_nonempty_salt "pw" "s" [] [7] (by decide)⟩

/-! ## Claim C7 -/

/-- Claim C7, counterexample.  For the supplied salt `""` the digest is
not the SHA-256 of `salt || password`: the empty salt is replaced by the
random draw (hex `00`), so the digest hashes `00x` rather than `x`. -/
theorem hash_empty_salt_digest_cex :
    (hash_password "x" (some "") [0]).1 ≠ bytesToHex (sha256 (strBytes ("" ++ "x"))) := by
  decide

/-- Claim C7, amended.  For every password `p`: with a nonempty supplied
salt `s`, `hash_password` returns as digest the lowercase-hex rendering
of SHA-256 of the concatenation `s || p` and returns `s` itself; with the
salt omitted, it hex-encodes the fresh 16-byte random draw (giving a
32-character hex salt) and uses that salt the same way. -/
theorem hash_password_contract (p s : String) (draw : List Nat) (hs : s ≠ "")
    (hlen : draw.length = 16) (hbytes : ∀ b ∈ draw, b < 256) :
    (hash_password p (some s) draw).1 = bytesToHex (sha256 (strBytes (s ++ p))) ∧
    (hash_password p (some s) draw).2 = s ∧
    (∀ c ∈ (hash_password p (some s) draw).1.data, isLowerHex c) ∧
    (hash_password p none draw).2 = token_hex draw ∧
    (hash_password p none draw).1 = bytesToHex (sha256 (strBytes (token_hex draw ++ p))) ∧
    (token_hex draw).length = 32 ∧
    (∀ c ∈ (token_hex draw).data, isLowerHex c) := by
  refine ⟨?_, ?_, ?_, ?_, ?_, ?_, ?_⟩
  · simp only [hash_password, if_neg hs, strBytes_append]
  · simp only [hash_password, if_neg hs]
  · simp only [hash_password, if_neg hs]
    exact bytesToHex_chars (sha256_mem_lt _)
  · simp only [hash_password]
  · simp only [hash_password, strBytes_append]
  · simp [token_hex, bytesToHex_length, hlen]
  · exact bytesToHex_chars hbytes

/-- Claim C7, witness with a concrete 16-byte all-zero draw. -/
theorem hash_password_contract_witness :
    ("s" : String) ≠ "" ∧
      (List.replicate 16 0).length = 16 ∧ (∀ b ∈ List.replicate 16 (0 : Nat), b < 256) ∧
      (hash_password "pw" (some "s") (List.replicate 16 0)).1 =
        bytesToHex (sha256 (strBytes ("s" ++ "pw"))) ∧
      (hash_password "pw" none (List.replicate 16 0)).2 = token_hex (List.replicate 16 0) :=
  ⟨by decide, by decide, by decide,
    (hash_password_contract "pw" "s" (List.replicate 16 0) (by decide) (by decide)
      (by decide)).1,
    (hash_password_contract "pw" "s" (List.replicate 16 0) (by decide) (by decide)
      (by decide)).2.2.2.1⟩

/-! ## Claim C8 -/

/-- Claim C8, counterexample.  The claim says `login` has no side effects
and leaves the current-user field unchanged on every outcome including
Success; in the source, a successful login assigns
`self.current_user = username`, changing the state. -/
theorem login_sets_current_user_cex :
    login stNo2FA "alice" "pw" none 0 [] = some (.retTrue, ⟨stNo2FA.users, some "alice"⟩) ∧
    stNo2FA.current_user = none ∧
    (⟨stNo2FA.users, some "alice"⟩ : SysState) ≠ stNo2FA := by
  refine ⟨by decide, rfl, by decide⟩

/-- Claim C8, amended.  `login` never touches the stored user rows, and it
is pure on every non-Success outcome (the state is returned unchanged);
on Success — and only then — its single side effect is setting the
current-user field to the authenticated username. -/
theorem login_frame (st : SysState) (username password : String)
    (totp_code : Option String) (t : Nat) (draw : List Nat)
    (res : LoginResult) (st2 : SysState)
    (h : login st username password totp_code t draw = some (res, st2)) :
    st2.users = st.users ∧ (res ≠ .retTrue → st2 = st) ∧
      (res = .retTrue → st2.current_user = some username) := by
  rw [login_eq_map_authenticate] at h
  cases ha : authenticate (lookupUser st.users username) password totp_code t draw with
  | none =>
    rw [ha] at h
    cases h
  | some o =>
    rw [ha] at h
    simp only [Option.map] at h
    cases h
    cases o with
    | Success => exact ⟨rfl, fun hne => absurd rfl hne, fun _ => rfl⟩
    | InvalidCredentials => exact ⟨rfl, fun _ => rfl, fun hq => by cases hq⟩
    | TwoFactorRequired => exact ⟨rfl, fun _ => rfl, fun hq => by cases hq⟩
    | InvalidTwoFactorCode => exact ⟨rfl, fun _ => rfl, fun hq => by cases hq⟩

/-- Claim C8, witness: a concrete successful login, with the frame facts
obtained from the theorem. -/
theorem login_frame_witness :
    login stNo2FA "alice" "pw" none 0 [] = some (.retTrue, ⟨stNo2FA.users, some "alice"⟩) ∧
    ((⟨stNo2FA.users, some "alice"⟩ : SysState).users = stNo2FA.users ∧
      (LoginResult.retTrue ≠ .retTrue → (⟨stNo2FA.users, some "alice"⟩ : SysState) = stNo2FA) ∧
      (LoginResult.retTrue = .retTrue →
        (⟨stNo2FA.users, some "alice"⟩ : SysState).current_user = some "alice")) :=
  ⟨by decide, login_frame stNo2FA "alice" "pw" none 0 [] .retTrue _ (by decide)⟩

/-! ## Claim C9 -/

/-- Claim C9, counterexample.  The claim quantifies over every secret, but
for a secret that is not valid base32 the source raises from inside
`base64.b32decode` even on the malformed code `abcdef`, instead of
returning false. -/
theorem verify_totp_invalid_secret_raises_cex :
    verify_totp "1" "abcdef" 0 = none := by
  decide

/-- Claim C9, amended.  For every secret that base32-decodes (and counter
in the packable range) and every malformed submitted code — wrong length
or containing a non-digit character — `verify_totp` returns false rather
than raising: the generated code is always exactly six decimal digits, so
a malformed code can never compare equal. -/
theorem verify_totp_rejects_malformed (secret code : String) (key : List Nat) (t : Nat)
    (hdec : b32decode secret = some key) (hctr : t / 30 < 2 ^ 64)
    (hm : code.length ≠ 6 ∨ ∃ ch ∈ code.data, ch.toNat < 48 ∨ 57 < ch.toNat) :
    verify_totp secret code t = some false := by
  obtain ⟨c, hc, hlen, hdig⟩ := generate_shape hdec hctr
  simp only [verify_totp, hc]
  have hne : c ≠ code := by
    intro he
    subst he
    rcases hm with h | ⟨ch, hch, hbad⟩
    · exact h hlen
    · have := hdig ch hch
      omega
  rw [beq_eq_false_iff_ne.mpr hne]

/-- Claim C9, witness: the spec's two garbage codes `abcdef` (non-digit)
and `12345` (wrong length) against a valid secret. -/
theorem verify_totp_rejects_malformed_witness :
    b32decode "AAAAAAAA" = some [0, 0, 0, 0, 0] ∧ (0 : Nat) / 30 < 2 ^ 64 ∧
    (("abcdef" : String).length ≠ 6 ∨
      ∃ ch ∈ ("abcdef" : String).data, ch.toNat < 48 ∨ 57 < ch.toNat) ∧
    (("12345" : String).length ≠ 6 ∨
      ∃ ch ∈ ("12345" : String).data, ch.toNat < 48 ∨ 57 < ch.toNat) ∧
    verify_totp "AAAAAAAA" "abcdef" 0 = some false ∧
    verify_totp "AAAAAAAA" "12345" 0 = some false :=
  ⟨by decide, by decide, by decide, by decide,
    verify_totp_rejects_malformed "AAAAAAAA" "abcdef" [0, 0, 0, 0, 0] 0
      (by decide) (by decide) (by decide),
    verify_totp_rejects_malformed "AAAAAAAA" "12345" [0, 0, 0, 0, 0] 0
      (by decide) (by decide) (by decide)⟩

/-! ## Claim C10 -/

/-- Claim C10.  TOTP generation and verification are not total in the
secret: for every secret string rejected by base32 decoding, both
`generate_totp_code` and — for every submitted code — `verify_totp`
raise (modelled by `none`) instead of returning a code or false. -/
theorem totp_not_total_invalid_secret (secret : String) (t : Nat)
    (hdec : b32decode secret = none) :
    generate_totp_code secret t 30 = none ∧
      ∀ code : String, verify_totp secret code t = none := by
  have hg : generate_totp_code secret t 30 = none := by
    simp only [generate_totp_code, hdec]
  exact ⟨hg, fun code => by simp only [verify_totp, hg]⟩

/-- Claim C10, witness: the invalid secret `1`. -/
theorem totp_not_total_invalid_secret_witness :
    b32decode "1" = none ∧
      (generate_totp_code "1" 0 30 = none ∧
        ∀ code : String, verify_totp "1" code 0 = none) :=
  ⟨by decide, totp_not_total_invalid_secret "1" 0 (by decide)⟩

end SecureLogin
